import Mathlib

/-!
Shallow embedding of the command-buffer pool
(`gfx/wr/webrender/src/device/gfx/command.rs`) and of the CPU descriptor
allocators (`third_party/rust/gfx-backend-dx12/src/descriptors_cpu.rs`).

Backend-native objects are abstracted: a command buffer is modelled by the
counts of `begin_primary` and `finish` calls issued on it, and a native
descriptor heap by its base address and per-slot stride, both supplied by
the device at creation time.  Fatal failures (Rust `panic!` via failed
`unwrap`/`expect`, a failed `assert!`, or an arithmetic underflow on a
`usize`) are modelled by `Option`: `none` means the call aborts.
-/

namespace Gfx

/-- Checked `usize` subtraction.  In a debug build Rust panics on underflow;
in a release build the value wraps to `2^64 - 1` and every use site in this
code then fails the `unwrap`/`expect` on that out-of-range index.  Both
modes abort the call, modelled as `none`. -/
def usizeSub (a b : Nat) : Option Nat :=
  if b ≤ a then some (a - b) else none

/-- Replace the element at index `i` (no-op when out of range), the effect of
a mutation through `get_mut(i)`. -/
def modifyAt {α : Type} (l : List α) (i : Nat) (f : α → α) : List α :=
  match l, i with
  | [], _ => []
  | x :: xs, 0 => f x :: xs
  | x :: xs, i + 1 => x :: modifyAt xs i f

/-- A backend command buffer, abstracted to the number of times
`begin_primary` and `finish` have been invoked on it. -/
structure CmdBuf where
  begins : Nat
  finishes : Nat
deriving DecidableEq, Repr

/-- `command_pool.allocate_one(Level::Primary)`: a buffer on which no
lifecycle call has happened yet. -/
def CmdBuf.fresh : CmdBuf := ⟨0, 0⟩

/-- `command_buffer.begin_primary(ONE_TIME_SUBMIT)`. -/
def CmdBuf.beginPrimary (b : CmdBuf) : CmdBuf := { b with begins := b.begins + 1 }

/-- `command_buffer.finish()`. -/
def CmdBuf.finish (b : CmdBuf) : CmdBuf := { b with finishes := b.finishes + 1 }

/-- `enum CBStrategy { UseOne, AllocateNew }`. -/
inductive CBStrategy where
  | UseOne
  | AllocateNew
deriving DecidableEq, Repr

/-- `struct CommandPool`.  The native `command_pool` handle is opaque and
carries no state the claims depend on, so it is dropped from the model. -/
structure CommandPool where
  command_buffers : List CmdBuf
  strategy : CBStrategy
  next_id : Nat
  begin : Bool
deriving DecidableEq, Repr

/-- `CommandPool::new`: the strategy argument is commented out in the
source, the tag is hard-wired to `AllocateNew`. -/
def CommandPool.new : CommandPool :=
  { command_buffers := []
    strategy := CBStrategy.AllocateNew
    next_id := 0
    begin := true }

/-- `CommandPool::buffer_mut(inside_render_pass)`.  Returns the index of the
buffer handed back (`&mut` aliases the slot at that index) together with the
updated pool; `none` models a panic. -/
def CommandPool.buffer_mut (p : CommandPool) (inside_render_pass : Bool) :
    Option (Nat × CommandPool) :=
  match p.strategy with
  | CBStrategy.UseOne =>
    let bufs :=
      if p.command_buffers.length < 1 then p.command_buffers ++ [CmdBuf.fresh]
      else p.command_buffers
    match bufs[0]? with
    | none => none
    | some _ =>
      if p.begin then
        some (0, { p with command_buffers := modifyAt bufs 0 CmdBuf.beginPrimary
                          begin := false })
      else
        some (0, { p with command_buffers := bufs })
  | CBStrategy.AllocateNew =>
    -- `if let Some(cb) = self.command_buffers.get_mut(self.next_id.max(1) - 1)`
    let bufs1 :=
      match p.command_buffers[max p.next_id 1 - 1]? with
      | some _ =>
        if p.next_id != 0 && !inside_render_pass then
          modifyAt p.command_buffers (max p.next_id 1 - 1) CmdBuf.finish
        else p.command_buffers
      | none => p.command_buffers
    -- `let next_id = if inside_render_pass { self.next_id - 1 } else { self.next_id };`
    match (if inside_render_pass then usizeSub p.next_id 1 else some p.next_id) with
    | none => none
    | some next_id =>
      let bufs2 :=
        if bufs1.length ≤ next_id then bufs1 ++ [CmdBuf.fresh] else bufs1
      match bufs2[next_id]? with
      | none => none
      | some _ =>
        if inside_render_pass then
          some (next_id, { p with command_buffers := bufs2 })
        else
          some (next_id,
            { p with command_buffers := modifyAt bufs2 next_id CmdBuf.beginPrimary
                     next_id := p.next_id + 1 })

/-- `CommandPool::buffers_to_submit`.  Returns the slice handed to the caller
(`&self.command_buffers` resp. `&self.command_buffers[0..self.next_id]`)
together with the updated pool; `none` models the `expect` panic. -/
def CommandPool.buffers_to_submit (p : CommandPool) :
    Option (List CmdBuf × CommandPool) :=
  match p.strategy with
  | CBStrategy.UseOne =>
    match p.command_buffers[0]? with
    | none => none
    | some _ =>
      let bufs := modifyAt p.command_buffers 0 CmdBuf.finish
      some (bufs, { p with command_buffers := bufs })
  | CBStrategy.AllocateNew =>
    match usizeSub p.next_id 1 with
    | none => none
    | some i =>
      match p.command_buffers[i]? with
      | none => none
      | some _ =>
        let bufs := modifyAt p.command_buffers i CmdBuf.finish
        some (bufs.take p.next_id, { p with command_buffers := bufs })

/-- `CommandPool::create_command_buffer`. -/
def CommandPool.create_command_buffer (p : CommandPool) : CommandPool :=
  if p.command_buffers.isEmpty then
    { p with command_buffers := p.command_buffers ++ [CmdBuf.fresh] }
  else p

/-- `CommandPool::reset`: resets the native allocator (invalidating recorded
content, which the model does not track), zeroes the cursor and re-arms the
begun-flag.  The `command_buffers` vector is kept. -/
def CommandPool.reset (p : CommandPool) : CommandPool :=
  { p with next_id := 0, begin := true }

/-! ## CPU descriptor allocators (`descriptors_cpu.rs`) -/

/-- `u64::MAX`, the `!0` mask with every slot free. -/
def U64_MAX : Nat := 2 ^ 64 - 1

/-- `u64::trailing_zeros` of a value below `2^64`: the least set bit index,
`64` when the value is `0`. -/
def trailingZeros64 (n : Nat) : Nat :=
  match (List.range 64).find? (fun i => n.testBit i) with
  | some i => i
  | none => 64

/-- `HeapLinear`: linear stack allocator for CPU descriptor heaps.  The
native `raw` heap is represented by its base address `start`. -/
structure HeapLinear where
  handle_size : Nat
  num : Nat
  size : Nat
  start : Nat
deriving DecidableEq, Repr

/-- `HeapLinear::new`.  The device call
`create_descriptor_heap(size, ty, empty, 0)` returns the pair
`(heap, hr)`; the heap contributes its base address `start`, and the
status `hr` is bound to `_hr` and discarded. -/
def HeapLinear.new (handle_size size start : Nat) (_hr : Int) : HeapLinear :=
  { handle_size := handle_size
    num := 0
    size := size
    start := start }

def HeapLinear.is_full (h : HeapLinear) : Bool :=
  decide (h.num ≥ h.size)

/-- `HeapLinear::alloc_handle`: `assert!(!self.is_full())` aborts (`none`)
on a full heap, otherwise the cursor slot is returned and advanced. -/
def HeapLinear.alloc_handle (h : HeapLinear) : Option (Nat × HeapLinear) :=
  if h.is_full then none
  else
    some (h.start + h.handle_size * h.num, { h with num := h.num + 1 })

def HeapLinear.clear (h : HeapLinear) : HeapLinear := { h with num := 0 }

def HEAP_SIZE_FIXED : Nat := 64

/-- `Heap`: fixed-size free-list allocator.  `availability` is the `u64`
occupancy mask (bit = 1 ⇔ free); the native heap is represented by its
base address. -/
structure Heap where
  availability : Nat
  handle_size : Nat
  start : Nat
deriving DecidableEq, Repr

/-- `Heap::new`: mask all-free; the device status `hr` is discarded. -/
def Heap.new (handle_size start : Nat) (_hr : Int) : Heap :=
  { availability := U64_MAX
    handle_size := handle_size
    start := start }

/-- `Heap::alloc_handle`: find-first-set scan, `assert!(slot < 64)` aborts
when the mask is zero, otherwise the slot bit is cleared by xor. -/
def Heap.alloc_handle (h : Heap) : Option (Nat × Heap) :=
  let slot := trailingZeros64 h.availability
  if slot < HEAP_SIZE_FIXED then
    some (h.start + h.handle_size * slot,
          { h with availability := h.availability ^^^ (1 <<< slot) })
  else none

def Heap.is_full (h : Heap) : Bool :=
  h.availability == 0

/-- The device collaborator of `DescriptorCpuPool`: the per-slot increment
for the pool's heap type, and for the `i`-th heap the pool creates, the base
address and status returned by `create_descriptor_heap`. -/
structure Device where
  handle_size : Nat
  starts : Nat → Nat
  hrs : Nat → Int

/-- `DescriptorCpuPool`.  The `HashSet<usize>` free list is modelled as a
duplicate-free list; its iteration order (like the hash set's) carries no
meaning, and `pool_free_list_small` below shows the set never holds more
than one index, so the choice made by `iter().next()` is immaterial. -/
structure DescriptorCpuPool where
  device : Device
  heaps : List Heap
  free_list : List Nat

def DescriptorCpuPool.new (d : Device) : DescriptorCpuPool :=
  { device := d, heaps := [], free_list := [] }

/-- `DescriptorCpuPool::alloc_handle`: pick a heap index from the free list
(appending a fresh heap and registering it when the set is empty), index
into `heaps` (a panic when out of range), delegate, and drop the index from
the free list when the heap became full. -/
def DescriptorCpuPool.alloc_handle (p : DescriptorCpuPool) :
    Option (Nat × DescriptorCpuPool) :=
  let picked : Nat × List Heap × List Nat :=
    match p.free_list.head? with
    | some id => (id, p.heaps, p.free_list)
    | none =>
      let id := p.heaps.length
      (id,
       p.heaps ++ [Heap.new p.device.handle_size (p.device.starts id) (p.device.hrs id)],
       if p.free_list.contains id then p.free_list else p.free_list ++ [id])
  let heap_id := picked.1
  let heaps := picked.2.1
  let fl := picked.2.2
  (heaps[heap_id]?).bind (fun heap =>
    heap.alloc_handle.map (fun r =>
      let fl1 := if r.2.is_full then fl.filter (fun x => x != heap_id) else fl
      (r.1, { p with heaps := heaps.set heap_id r.2, free_list := fl1 })))

/-! ## Iterated allocation runs -/

/-- Iterate `Heap.alloc_handle`, collecting the returned addresses;
`none` as soon as one call aborts. -/
def runHeapAlloc : Heap → Nat → Option (List Nat × Heap)
  | h, 0 => some ([], h)
  | h, n + 1 =>
    match h.alloc_handle with
    | none => none
    | some (a, h1) =>
      match runHeapAlloc h1 n with
      | none => none
      | some (as_, h2) => some (a :: as_, h2)

/-- Iterate `HeapLinear.alloc_handle`, collecting addresses. -/
def runLinearAlloc : HeapLinear → Nat → Option (List Nat × HeapLinear)
  | h, 0 => some ([], h)
  | h, n + 1 =>
    match h.alloc_handle with
    | none => none
    | some (a, h1) =>
      match runLinearAlloc h1 n with
      | none => none
      | some (as_, h2) => some (a :: as_, h2)

/-- Iterate `DescriptorCpuPool.alloc_handle`, collecting addresses. -/
def runPoolAlloc : DescriptorCpuPool → Nat → Option (List Nat × DescriptorCpuPool)
  | p, 0 => some ([], p)
  | p, n + 1 =>
    match p.alloc_handle with
    | none => none
    | some (a, p1) =>
      match runPoolAlloc p1 n with
      | none => none
      | some (as_, p2) => some (a :: as_, p2)

/-- Trace of buffer indices produced by a sequence of `buffer_mut` requests
(`true` = inside a render pass); a panic ends the trace with `none`. -/
def runTrace : CommandPool → List Bool → List (Option Nat)
  | _, [] => []
  | p, b :: bs =>
    match p.buffer_mut b with
    | none => [none]
    | some (i, p1) => some i :: runTrace p1 bs

/-! ## Free-list heap: availability mask evolution -/

/-- The availability mask of a free-list heap whose slots `0 .. j-1` are
occupied and whose slots `j .. 63` are free. -/
def mask (j : Nat) : Nat := 2 ^ 64 - 2 ^ j

/-- State of a fresh free-list heap after its first `k` allocations. -/
def heapAfter (handle_size start k : Nat) : Heap :=
  ⟨mask k, handle_size, start⟩

/-- State of a bump heap of capacity `size` after `k` allocations. -/
def linearAfter (handle_size size start k : Nat) : HeapLinear :=
  ⟨handle_size, k, size, start⟩


/-- Number of free bits among the 64 slots of an occupancy mask. -/
def freeBits (a : Nat) : Nat :=
  ((List.range 64).filter (fun i => a.testBit i)).length

/-- The heaps owned by the pool that have been completely filled. -/
def fullHeaps (d : Device) (m : Nat) : List Heap :=
  (List.range m).map (fun i => ⟨0, d.handle_size, d.starts i⟩)

/-- State of a fresh pool after `64 * m + j` allocations (`j < 64`): `m`
completely full heaps; for `j = 0` nothing else, otherwise one more heap
with `j` occupied slots whose index `m` is the sole spare-capacity entry. -/
def poolAfter (d : Device) (m j : Nat) : DescriptorCpuPool :=
  { device := d
    heaps := fullHeaps d m ++
      (if j = 0 then [] else [heapAfter d.handle_size (d.starts m) j])
    free_list := if j = 0 then [] else [m] }

/-- Pool state after `n` allocations from a fresh pool. -/
def poolAfterN (d : Device) (n : Nat) : DescriptorCpuPool :=
  poolAfter d (n / 64) (n % 64)

lemma trailingZeros64_mask : ∀ k, k < 64 → trailingZeros64 (mask k) = k := by decide

lemma mask_xor : ∀ k, k < 64 → mask k ^^^ (1 <<< k) = mask (k + 1) := by decide

lemma mask_ne_zero : ∀ j, j < 64 → mask j ≠ 0 := by decide

lemma mask_64 : mask 64 = 0 := by decide

lemma U64_MAX_eq : U64_MAX = mask 0 := by decide

lemma trailingZeros64_zero : trailingZeros64 0 = 64 := by decide

attribute [irreducible] trailingZeros64

lemma heap_alloc_step (hs st k : Nat) (hk : k < 64) :
    (heapAfter hs st k).alloc_handle =
      some (st + hs * k, heapAfter hs st (k + 1)) := by
  have h1 := trailingZeros64_mask k hk
  have h2 := mask_xor k hk
  simp only [Heap.alloc_handle, heapAfter, HEAP_SIZE_FIXED, h1, h2]
  simp [hk]

lemma heap_alloc_full (hs st : Nat) : Heap.alloc_handle ⟨0, hs, st⟩ = none := by
  simp [Heap.alloc_handle, trailingZeros64_zero, HEAP_SIZE_FIXED]

lemma heap_is_full_mask (hs st j : Nat) (hj : j < 64) :
    Heap.is_full ⟨mask j, hs, st⟩ = false := by
  simp only [Heap.is_full]
  exact beq_eq_false_iff_ne.mpr (mask_ne_zero j hj)

lemma runHeapAlloc_heapAfter (hs st : Nat) :
    ∀ n k, k + n = 64 →
      runHeapAlloc (heapAfter hs st k) n =
        some ((List.range n).map (fun i => st + hs * (k + i)), heapAfter hs st 64) := by
  intro n
  induction n with
  | zero =>
    intro k h
    have hk : k = 64 := by omega
    subst hk
    simp [runHeapAlloc]
  | succ n ih =>
    intro k h
    have hk : k < 64 := by omega
    simp only [runHeapAlloc, heap_alloc_step hs st k hk, ih (k + 1) (by omega)]
    simp only [List.range_succ_eq_map, List.map_cons, List.map_map, Option.some.injEq,
      Prod.mk.injEq, and_true, List.cons.injEq]
    constructor
    · simp
    · apply List.map_congr_left
      intro i _
      simp [Function.comp]
      omega

/-! ## Bump heap: cursor evolution -/

lemma linear_alloc_step (hs C st k : Nat) (hk : k < C) :
    (linearAfter hs C st k).alloc_handle =
      some (st + hs * k, linearAfter hs C st (k + 1)) := by
  have hnot : ¬ C ≤ k := by omega
  simp [HeapLinear.alloc_handle, HeapLinear.is_full, linearAfter, hnot]

lemma linear_alloc_full (hs C st : Nat) :
    (linearAfter hs C st C).alloc_handle = none := by
  simp [HeapLinear.alloc_handle, HeapLinear.is_full, linearAfter]

lemma runLinearAlloc_linearAfter (hs C st : Nat) :
    ∀ n k, k + n = C →
      runLinearAlloc (linearAfter hs C st k) n =
        some ((List.range n).map (fun i => st + hs * (k + i)), linearAfter hs C st C) := by
  intro n
  induction n with
  | zero =>
    intro k h
    have hk : k = C := by omega
    subst hk
    simp [runLinearAlloc]
  | succ n ih =>
    intro k h
    have hk : k < C := by omega
    simp only [runLinearAlloc, linear_alloc_step hs C st k hk, ih (k + 1) (by omega)]
    simp only [List.range_succ_eq_map, List.map_cons, List.map_map, Option.some.injEq,
      Prod.mk.injEq, and_true, List.cons.injEq]
    constructor
    · simp
    · apply List.map_congr_left
      intro i _
      simp [Function.comp]
      omega

/-! ## Heap pool: shape of every reachable state -/

lemma set_concat_length {α : Type} (A : List α) (x y : α) :
    (A ++ [x]).set A.length y = A ++ [y] := by
  induction A with
  | nil => rfl
  | cons a as ih => simp [ih]

lemma fullHeaps_length (d : Device) (m : Nat) : (fullHeaps d m).length = m := by
  simp [fullHeaps]

lemma fullHeaps_concat_get (d : Device) (m : Nat) (x : Heap) :
    (fullHeaps d m ++ [x])[m]? = some x := by
  have h := List.getElem?_concat_length (fullHeaps d m) x
  rwa [fullHeaps_length] at h

lemma fullHeaps_concat_set (d : Device) (m : Nat) (x y : Heap) :
    (fullHeaps d m ++ [x]).set m y = fullHeaps d m ++ [y] := by
  have h := set_concat_length (fullHeaps d m) x y
  rwa [fullHeaps_length] at h

lemma Heap_new_eq (hs st : Nat) (hr : Int) : Heap.new hs st hr = heapAfter hs st 0 := by
  simp [Heap.new, heapAfter, U64_MAX_eq]

lemma heapAfter_is_full (hs st j : Nat) (hj : j < 64) :
    (heapAfter hs st j).is_full = false :=
  heap_is_full_mask hs st j hj

lemma heapAfter_full_64 (hs st : Nat) : (heapAfter hs st 64).is_full = true := by
  simp [heapAfter, Heap.is_full, mask_64]

lemma contains_nil_nat (a : Nat) : ([] : List Nat).contains a = false := rfl

lemma pool_alloc_step (d : Device) (m j : Nat) (hj : j < 64) :
    (poolAfter d m j).alloc_handle =
      some (d.starts m + d.handle_size * j,
        if j = 63 then poolAfter d (m + 1) 0 else poolAfter d m (j + 1)) := by
  rcases Nat.eq_zero_or_pos j with hj0 | hj1
  · subst hj0
    have hp : poolAfter d m 0 = ⟨d, fullHeaps d m, []⟩ := by
      simp [poolAfter]
    rw [hp]
    simp only [DescriptorCpuPool.alloc_handle, List.head?_nil, contains_nil_nat,
      fullHeaps_length, Heap_new_eq]
    rw [fullHeaps_concat_get, Option.some_bind,
      heap_alloc_step d.handle_size (d.starts m) 0 (by omega), Option.map_some',
      heapAfter_is_full d.handle_size (d.starts m) (0 + 1) (by omega),
      fullHeaps_concat_set]
    simp [poolAfter]
  · have hne : j ≠ 0 := by omega
    have hp : poolAfter d m j =
        ⟨d, fullHeaps d m ++ [heapAfter d.handle_size (d.starts m) j], [m]⟩ := by
      simp [poolAfter, hne]
    rw [hp]
    simp only [DescriptorCpuPool.alloc_handle, List.head?_cons]
    by_cases h63 : j = 63
    · subst h63
      have hful := heapAfter_full_64 d.handle_size (d.starts m)
      rw [show (64 : Nat) = 63 + 1 from rfl] at hful
      rw [fullHeaps_concat_get, Option.some_bind,
        heap_alloc_step d.handle_size (d.starts m) 63 (by omega), Option.map_some',
        hful, fullHeaps_concat_set]
      have hcat : fullHeaps d m ++ [heapAfter d.handle_size (d.starts m) (63 + 1)]
          = fullHeaps d (m + 1) := by
        simp [fullHeaps, List.range_succ, heapAfter, mask_64]
      rw [hcat]
      simp [poolAfter]
    · have hj1 : j + 1 < 64 := by omega
      have hj1ne : j + 1 ≠ 0 := by omega
      rw [fullHeaps_concat_get, Option.some_bind,
        heap_alloc_step d.handle_size (d.starts m) j hj, Option.map_some',
        heapAfter_is_full d.handle_size (d.starts m) (j + 1) hj1,
        fullHeaps_concat_set]
      simp [poolAfter, h63, hj1ne]

lemma pool_alloc_stepN (d : Device) (n : Nat) :
    (poolAfterN d n).alloc_handle =
      some (d.starts (n / 64) + d.handle_size * (n % 64), poolAfterN d (n + 1)) := by
  have hj : n % 64 < 64 := Nat.mod_lt _ (by omega)
  rw [poolAfterN, pool_alloc_step d (n / 64) (n % 64) hj]
  by_cases h63 : n % 64 = 63
  · have hdiv : (n + 1) / 64 = n / 64 + 1 := by omega
    have hmod : (n + 1) % 64 = 0 := by omega
    simp [h63, poolAfterN, hdiv, hmod]
  · have hdiv : (n + 1) / 64 = n / 64 := by omega
    have hmod : (n + 1) % 64 = n % 64 + 1 := by omega
    simp [h63, poolAfterN, hdiv, hmod]

lemma runPoolAlloc_poolAfterN (d : Device) :
    ∀ n k, ∃ out, runPoolAlloc (poolAfterN d k) n = some (out, poolAfterN d (k + n)) := by
  intro n
  induction n with
  | zero => intro k; exact ⟨[], rfl⟩
  | succ n ih =>
    intro k
    obtain ⟨out, hout⟩ := ih (k + 1)
    have harith : k + (n + 1) = k + 1 + n := by omega
    rw [harith]
    refine ⟨(d.starts (k / 64) + d.handle_size * (k % 64)) :: out, ?_⟩
    simp only [runPoolAlloc, pool_alloc_stepN d k, hout]

lemma poolAfterN_zero (d : Device) : poolAfterN d 0 = DescriptorCpuPool.new d := by
  simp [poolAfterN, poolAfter, fullHeaps, DescriptorCpuPool.new]

lemma runPoolAlloc_new (d : Device) (n : Nat) :
    ∃ out, runPoolAlloc (DescriptorCpuPool.new d) n = some (out, poolAfterN d n) := by
  obtain ⟨out, hout⟩ := runPoolAlloc_poolAfterN d n 0
  rw [poolAfterN_zero] at hout
  exact ⟨out, by simpa using hout⟩

/-- The spare-capacity set of a fresh pool never holds more than one index
under allocation-only workloads, so the unspecified iteration order of the
`HashSet` is immaterial to `alloc_handle`. -/
lemma pool_free_list_small (d : Device) (nn : Nat) (outl : List Nat)
    (p : DescriptorCpuPool)
    (hrun : runPoolAlloc (DescriptorCpuPool.new d) nn = some (outl, p)) :
    p.free_list.length ≤ 1 := by
  obtain ⟨out2, hout2⟩ := runPoolAlloc_new d nn
  rw [hrun] at hout2
  simp only [Option.some.injEq, Prod.mk.injEq] at hout2
  rw [hout2.2]
  by_cases hz : nn % 64 = 0 <;> simp [poolAfterN, poolAfter, hz]

/-! ## Theorems -/

/-- C10: the public constructor hard-wires the Per-Pass (`AllocateNew`)
strategy — the strategy parameter is commented out, so `UseOne` is
unreachable through it — and initializes the cursor to 0, the begun-flag to
armed, and the buffer list to empty. -/
theorem C10_constructor_fields :
    CommandPool.new.strategy = CBStrategy.AllocateNew
    ∧ CommandPool.new.next_id = 0
    ∧ CommandPool.new.begin = true
    ∧ CommandPool.new.command_buffers = [] :=
  ⟨rfl, rfl, rfl, rfl⟩

/-- C9: both heap constructors discard the status value returned by
`create_descriptor_heap`: for any two statuses the backend could report,
the constructed allocators are identical in every field, and the return
types (`HeapLinear`, `Heap`, no error component) propagate nothing. -/
theorem C9_status_discarded (handle_size size start : Nat) (hr hr2 : Int) :
    HeapLinear.new handle_size size start hr = HeapLinear.new handle_size size start hr2
    ∧ Heap.new handle_size start hr = Heap.new handle_size start hr2 :=
  ⟨rfl, rfl⟩

/-- C1, counterexample: the claim says the first-ever `buffer_mut` call made
inside a render pass (cursor = 0, no buffer ever allocated) completes and
returns buffer 0; on the code it aborts — the target index is computed as
`self.next_id - 1` without clamping, which underflows the cursor. -/
theorem C1_counterexample :
    CommandPool.new.buffer_mut true = none := by decide

/-- C1, amended: the clamped expression `next_id.max(1) - 1` is used only to
locate the buffer to finish; the target index of an inside-render-pass call
is the unclamped `next_id - 1`, so any call made inside a render pass while
the cursor is 0 underflows the cursor and aborts instead of completing. -/
theorem C1_first_inside_call_underflows (p : CommandPool)
    (hs : p.strategy = CBStrategy.AllocateNew) (hn : p.next_id = 0) :
    p.buffer_mut true = none := by
  simp [CommandPool.buffer_mut, hs, hn, usizeSub]

theorem C1_first_inside_call_underflows_witness :
    CommandPool.new.strategy = CBStrategy.AllocateNew
    ∧ CommandPool.new.next_id = 0
    ∧ CommandPool.new.buffer_mut true = none :=
  ⟨by decide, by decide,
   C1_first_inside_call_underflows CommandPool.new (by decide) (by decide)⟩

/-- C2: from a fresh free-list heap (capacity 64, mask all-free), 64
allocations return the slots in strictly ascending order 0..63, each at
address `base + slot * stride`; the resulting mask is 0 and a 65th call on
that full heap aborts. -/
theorem C2_free_list_ascending (handle_size start : Nat) (hr : Int) :
    runHeapAlloc (Heap.new handle_size start hr) 64 =
      some ((List.range 64).map (fun slot => start + handle_size * slot),
        ⟨0, handle_size, start⟩)
    ∧ Heap.alloc_handle ⟨0, handle_size, start⟩ = none := by
  constructor
  · have h := runHeapAlloc_heapAfter handle_size start 64 0 (by omega)
    have hnew : Heap.new handle_size start hr = heapAfter handle_size start 0 := by
      simp [Heap.new, heapAfter, U64_MAX_eq]
    rw [hnew, h]
    have hfin : heapAfter handle_size start 64 = (⟨0, handle_size, start⟩ : Heap) := by
      simp [heapAfter, mask_64]
    rw [hfin]
    simp
  · exact heap_alloc_full handle_size start

/-- C5: a bump allocator of capacity `size` serves exactly `size`
allocations at strictly increasing, stride-spaced addresses starting at the
heap base; the next call on the exhausted heap aborts; and clearing the
cursor restores the freshly-constructed state, so the next allocation
reproduces the very first address. -/
theorem C5_bump_allocator (handle_size size start : Nat) (hr : Int)
    (hstride : 0 < handle_size) (hcap : 0 < size) :
    runLinearAlloc (HeapLinear.new handle_size size start hr) size =
      some ((List.range size).map (fun slot => start + handle_size * slot),
        linearAfter handle_size size start size)
    ∧ List.Chain' (· < ·) ((List.range size).map (fun slot => start + handle_size * slot))
    ∧ (linearAfter handle_size size start size).alloc_handle = none
    ∧ (linearAfter handle_size size start size).clear = HeapLinear.new handle_size size start hr
    ∧ (HeapLinear.new handle_size size start hr).alloc_handle =
        some (start, linearAfter handle_size size start 1) := by
  refine ⟨?_, ?_, linear_alloc_full handle_size size start, rfl, ?_⟩
  · have h := runLinearAlloc_linearAfter handle_size size start size 0 (by omega)
    have hnew : HeapLinear.new handle_size size start hr = linearAfter handle_size size start 0 :=
      rfl
    rw [hnew, h]
    simp
  · rw [List.chain'_map]
    cases size with
    | zero => simp
    | succ n =>
      rw [List.chain'_range_succ]
      intro m _hm
      have hmul : handle_size * m.succ = handle_size * m + handle_size := Nat.mul_succ _ _
      omega
  · have hnot : ¬ size ≤ 0 := by omega
    simp [HeapLinear.new, HeapLinear.alloc_handle, HeapLinear.is_full, linearAfter, hnot]

theorem C5_bump_allocator_witness :
    (0 < 2 ∧ 0 < 3)
    ∧ (runLinearAlloc (HeapLinear.new 2 3 100 0) 3 =
        some ((List.range 3).map (fun slot => 100 + 2 * slot), linearAfter 2 3 100 3)
      ∧ List.Chain' (· < ·) ((List.range 3).map (fun slot => 100 + 2 * slot))
      ∧ (linearAfter 2 3 100 3).alloc_handle = none
      ∧ (linearAfter 2 3 100 3).clear = HeapLinear.new 2 3 100 0
      ∧ (HeapLinear.new 2 3 100 0).alloc_handle = some (100, linearAfter 2 3 100 1)) :=
  ⟨⟨by decide, by decide⟩, C5_bump_allocator 2 3 100 0 (by decide) (by decide)⟩

/-- C3: after `64 * k + 1` allocations from a fresh pool, the pool owns
exactly `k + 1` heaps and the last heap has exactly one occupied slot
(63 of its 64 bits still free). -/
theorem C3_pool_growth (d : Device) (k : Nat) :
    ∃ out p, runPoolAlloc (DescriptorCpuPool.new d) (64 * k + 1) = some (out, p)
      ∧ p.heaps.length = k + 1
      ∧ ∃ h, p.heaps.getLast? = some h ∧ freeBits h.availability = 63 := by
  obtain ⟨out, hout⟩ := runPoolAlloc_new d (64 * k + 1)
  have hdiv : (64 * k + 1) / 64 = k := by omega
  have hmod : (64 * k + 1) % 64 = 1 := by omega
  refine ⟨out, poolAfterN d (64 * k + 1), hout, ?_, ?_⟩
  · simp [poolAfterN, hdiv, hmod, poolAfter, fullHeaps_length]
  · refine ⟨heapAfter d.handle_size (d.starts k) 1, ?_, ?_⟩
    · simp [poolAfterN, hdiv, hmod, poolAfter, List.getLast?_concat]
    · show freeBits (mask 1) = 63
      decide

lemma fullHeaps_getElem_full (d : Device) (m i : Nat) (h : Heap)
    (hget : (fullHeaps d m)[i]? = some h) : h.is_full = true := by
  rw [fullHeaps, List.getElem?_map] at hget
  cases hr : (List.range m)[i]? with
  | none => rw [hr] at hget; simp at hget
  | some a =>
    rw [hr] at hget
    simp only [Option.map_some', Option.some.injEq] at hget
    rw [← hget]
    rfl

/-- C4: every allocation sequence from a fresh pool succeeds (each request
is delegated to a heap that is not full — a new heap is appended first when
every existing heap is full, and allocating from a full heap would abort),
and in the resulting state an index `i` belongs to the spare-capacity set
if and only if heap `i` exists and is not full. -/
theorem C4_spare_capacity_iff (d : Device) (n : Nat) :
    ∃ out p, runPoolAlloc (DescriptorCpuPool.new d) n = some (out, p)
      ∧ ∀ i, i ∈ p.free_list ↔ ∃ h, p.heaps[i]? = some h ∧ h.is_full = false := by
  obtain ⟨out, hout⟩ := runPoolAlloc_new d n
  refine ⟨out, poolAfterN d n, hout, ?_⟩
  intro i
  by_cases hz : n % 64 = 0
  · have hfl : (poolAfterN d n).free_list = [] := by
      simp [poolAfterN, poolAfter, hz]
    have hhp : (poolAfterN d n).heaps = fullHeaps d (n / 64) := by
      simp [poolAfterN, poolAfter, hz]
    rw [hfl, hhp]
    simp only [List.not_mem_nil, false_iff]
    rintro ⟨h, hget, hfull⟩
    rw [fullHeaps_getElem_full d (n / 64) i h hget] at hfull
    exact Bool.noConfusion hfull
  · have hj : n % 64 < 64 := Nat.mod_lt _ (by omega)
    have hfl : (poolAfterN d n).free_list = [n / 64] := by
      simp [poolAfterN, poolAfter, hz]
    have hhp : (poolAfterN d n).heaps =
        fullHeaps d (n / 64) ++ [heapAfter d.handle_size (d.starts (n / 64)) (n % 64)] := by
      simp [poolAfterN, poolAfter, hz]
    rw [hfl, hhp]
    rw [List.mem_singleton]
    constructor
    · intro hi
      subst hi
      exact ⟨heapAfter d.handle_size (d.starts (n / 64)) (n % 64),
        fullHeaps_concat_get d (n / 64) _,
        heapAfter_is_full d.handle_size (d.starts (n / 64)) (n % 64) hj⟩
    · rintro ⟨h, hget, hfull⟩
      rcases Nat.lt_trichotomy i (n / 64) with hlt | heq | hgt
      · exfalso
        have hleft : (fullHeaps d (n / 64))[i]? = some h := by
          rw [List.getElem?_append] at hget
          rw [if_pos (by rw [fullHeaps_length]; exact hlt)] at hget
          exact hget
        rw [fullHeaps_getElem_full d (n / 64) i h hleft] at hfull
        exact Bool.noConfusion hfull
      · exact heq
      · exfalso
        have hnone : (fullHeaps d (n / 64) ++
            [heapAfter d.handle_size (d.starts (n / 64)) (n % 64)])[i]? = none := by
          apply List.getElem?_eq_none
          simp [fullHeaps_length]
          omega
        rw [hnone] at hget
        exact Option.noConfusion hget

lemma modifyAt_length {α : Type} (l : List α) (i : Nat) (f : α → α) :
    (modifyAt l i f).length = l.length := by
  induction l generalizing i with
  | nil => rfl
  | cons x xs ih =>
    cases i with
    | zero => rfl
    | succ j => simp [modifyAt, ih]

/-- C6: the submission-set operation finishes the currently active buffer
(buffer 0 under `UseOne`, buffer `cursor - 1` under `AllocateNew`) exactly
once, fails fatally exactly when no buffer was ever allocated (empty list
resp. cursor 0), and returns the buffers in allocation order: the whole
list under `UseOne`, the prefix `[0, cursor)` under `AllocateNew`. -/
theorem C6_buffers_to_submit (p : CommandPool)
    (hinv : p.next_id ≤ p.command_buffers.length) :
    (p.strategy = CBStrategy.UseOne →
      (p.buffers_to_submit = none ↔ p.command_buffers = [])
      ∧ ∀ bs p2, p.buffers_to_submit = some (bs, p2) →
          p2.command_buffers = modifyAt p.command_buffers 0 CmdBuf.finish
          ∧ bs = p2.command_buffers
          ∧ p2.strategy = p.strategy ∧ p2.next_id = p.next_id ∧ p2.begin = p.begin)
    ∧ (p.strategy = CBStrategy.AllocateNew →
      (p.buffers_to_submit = none ↔ p.next_id = 0)
      ∧ ∀ bs p2, p.buffers_to_submit = some (bs, p2) →
          p2.command_buffers = modifyAt p.command_buffers (p.next_id - 1) CmdBuf.finish
          ∧ bs = p2.command_buffers.take p.next_id
          ∧ p2.strategy = p.strategy ∧ p2.next_id = p.next_id ∧ p2.begin = p.begin) := by
  obtain ⟨bufs, strat, nid, bg⟩ := p
  constructor
  · rintro rfl
    cases bufs with
    | nil =>
      refine ⟨by simp [CommandPool.buffers_to_submit], ?_⟩
      intro bs p2 h
      simp [CommandPool.buffers_to_submit] at h
    | cons b rest =>
      refine ⟨by simp [CommandPool.buffers_to_submit], ?_⟩
      intro bs p2 h
      simp only [CommandPool.buffers_to_submit, List.getElem?_cons_zero,
        Option.some.injEq, Prod.mk.injEq] at h
      obtain ⟨rfl, rfl⟩ := h
      exact ⟨rfl, rfl, rfl, rfl, rfl⟩
  · rintro rfl
    cases nid with
    | zero =>
      refine ⟨by simp [CommandPool.buffers_to_submit, usizeSub], ?_⟩
      intro bs p2 h
      simp [CommandPool.buffers_to_submit, usizeSub] at h
    | succ j =>
      have hj : j < bufs.length := by
        simpa using Nat.lt_of_lt_of_le (Nat.lt_succ_self j) hinv
      have hsub : usizeSub (j + 1) 1 = some j := by simp [usizeSub]
      have hget : bufs[j]? = some bufs[j] := List.getElem?_eq_getElem hj
      constructor
      · simp [CommandPool.buffers_to_submit, hsub, hget]
      · intro bs p2 h
        simp only [CommandPool.buffers_to_submit, hsub, hget,
          Option.some.injEq, Prod.mk.injEq] at h
        obtain ⟨rfl, rfl⟩ := h
        exact ⟨rfl, rfl, rfl, rfl, rfl⟩

theorem C6_buffers_to_submit_witness :
    (1 : Nat) ≤ 1
    ∧ ((CommandPool.mk [⟨1, 0⟩] CBStrategy.UseOne 1 true).strategy = CBStrategy.UseOne →
      ((CommandPool.mk [⟨1, 0⟩] CBStrategy.UseOne 1 true).buffers_to_submit = none ↔
        (CommandPool.mk [⟨1, 0⟩] CBStrategy.UseOne 1 true).command_buffers = [])
      ∧ ∀ bs p2,
          (CommandPool.mk [⟨1, 0⟩] CBStrategy.UseOne 1 true).buffers_to_submit = some (bs, p2) →
          p2.command_buffers =
            modifyAt (CommandPool.mk [⟨1, 0⟩] CBStrategy.UseOne 1 true).command_buffers 0
              CmdBuf.finish
          ∧ bs = p2.command_buffers
          ∧ p2.strategy = (CommandPool.mk [⟨1, 0⟩] CBStrategy.UseOne 1 true).strategy
          ∧ p2.next_id = (CommandPool.mk [⟨1, 0⟩] CBStrategy.UseOne 1 true).next_id
          ∧ p2.begin = (CommandPool.mk [⟨1, 0⟩] CBStrategy.UseOne 1 true).begin)
    ∧ ((CommandPool.mk [⟨1, 0⟩] CBStrategy.UseOne 1 true).strategy = CBStrategy.AllocateNew →
      ((CommandPool.mk [⟨1, 0⟩] CBStrategy.UseOne 1 true).buffers_to_submit = none ↔
        (CommandPool.mk [⟨1, 0⟩] CBStrategy.UseOne 1 true).next_id = 0)
      ∧ ∀ bs p2,
          (CommandPool.mk [⟨1, 0⟩] CBStrategy.UseOne 1 true).buffers_to_submit = some (bs, p2) →
          p2.command_buffers =
            modifyAt (CommandPool.mk [⟨1, 0⟩] CBStrategy.UseOne 1 true).command_buffers
              ((CommandPool.mk [⟨1, 0⟩] CBStrategy.UseOne 1 true).next_id - 1) CmdBuf.finish
          ∧ bs = p2.command_buffers.take (CommandPool.mk [⟨1, 0⟩] CBStrategy.UseOne 1 true).next_id
          ∧ p2.strategy = (CommandPool.mk [⟨1, 0⟩] CBStrategy.UseOne 1 true).strategy
          ∧ p2.next_id = (CommandPool.mk [⟨1, 0⟩] CBStrategy.UseOne 1 true).next_id
          ∧ p2.begin = (CommandPool.mk [⟨1, 0⟩] CBStrategy.UseOne 1 true).begin) :=
  ⟨by decide, C6_buffers_to_submit (CommandPool.mk [⟨1, 0⟩] CBStrategy.UseOne 1 true) (by decide)⟩

lemma buffer_mut_inside_zero (p : CommandPool)
    (hs : p.strategy = CBStrategy.AllocateNew) (hn : p.next_id = 0) :
    p.buffer_mut true = none := by
  simp [CommandPool.buffer_mut, hs, hn, usizeSub]

lemma buffer_mut_shape (p : CommandPool) (hs : p.strategy = CBStrategy.AllocateNew)
    (hn : p.next_id ≤ p.command_buffers.length) (inside : Bool) :
    if inside = true ∧ p.next_id = 0 then p.buffer_mut inside = none
    else ∃ p2, p.buffer_mut inside
          = some ((if inside then p.next_id - 1 else p.next_id), p2)
        ∧ p2.strategy = CBStrategy.AllocateNew
        ∧ p2.next_id = (if inside then p.next_id else p.next_id + 1)
        ∧ p2.next_id ≤ p2.command_buffers.length := by
  obtain ⟨bufs, strat, nid, bg⟩ := p
  simp only at hs
  subst hs
  cases inside with
  | true =>
    cases nid with
    | zero =>
      rw [if_pos ⟨rfl, rfl⟩]
      exact buffer_mut_inside_zero _ rfl rfl
    | succ j =>
      rw [if_neg (by simp)]
      have hj : j < bufs.length := by
        simpa using Nat.lt_of_lt_of_le (Nat.lt_succ_self j) hn
      have hsub : usizeSub (j + 1) 1 = some j := by simp [usizeSub]
      have hnopush : ¬ bufs.length ≤ j := by omega
      have hget : bufs[j]? = some bufs[j] := List.getElem?_eq_getElem hj
      refine ⟨CommandPool.mk bufs CBStrategy.AllocateNew (j + 1) bg, ?_, rfl, by simp, ?_⟩
      · simp [CommandPool.buffer_mut, hsub, hnopush, hget]
      · simpa using hn
  | false =>
    cases nid with
    | zero =>
      rw [if_neg (by simp)]
      cases bufs with
      | nil =>
        refine ⟨CommandPool.mk [CmdBuf.beginPrimary CmdBuf.fresh] CBStrategy.AllocateNew 1 bg,
          ?_, rfl, by simp, by simp⟩
        simp [CommandPool.buffer_mut, modifyAt]
      | cons b rest =>
        refine ⟨CommandPool.mk (modifyAt (b :: rest) 0 CmdBuf.beginPrimary)
          CBStrategy.AllocateNew 1 bg, ?_, rfl, by simp, ?_⟩
        · have hnopush : ¬ (b :: rest).length ≤ 0 := by simp
          simp [CommandPool.buffer_mut, hnopush]
        · simp [modifyAt_length]
    | succ j =>
      rw [if_neg (by simp)]
      have hj : j < bufs.length := by
        simpa using Nat.lt_of_lt_of_le (Nat.lt_succ_self j) hn
      have hmax : max (j + 1) 1 - 1 = j := by omega
      have hget1 : bufs[j]? = some bufs[j] := List.getElem?_eq_getElem hj
      by_cases hpush : (modifyAt bufs j CmdBuf.finish).length ≤ j + 1
      · have hlen : bufs.length = j + 1 := by
          rw [modifyAt_length] at hpush
          omega
        have hget2 : (modifyAt bufs j CmdBuf.finish ++ [CmdBuf.fresh])[j + 1]? =
            some CmdBuf.fresh := by
          have h := List.getElem?_concat_length (modifyAt bufs j CmdBuf.finish) CmdBuf.fresh
          rwa [modifyAt_length, hlen] at h
        refine ⟨CommandPool.mk
          (modifyAt (modifyAt bufs j CmdBuf.finish ++ [CmdBuf.fresh]) (j + 1)
            CmdBuf.beginPrimary)
          CBStrategy.AllocateNew (j + 1 + 1) bg, ?_, rfl, by simp, ?_⟩
        · simp [CommandPool.buffer_mut, hmax, hget1, hpush, hget2]
        · simp [modifyAt_length, hlen]
      · have hlt : j + 1 < bufs.length := by
          rw [modifyAt_length] at hpush
          omega
        have hget2 : (modifyAt bufs j CmdBuf.finish)[j + 1]? =
            some (modifyAt bufs j CmdBuf.finish)[j + 1] :=
          List.getElem?_eq_getElem (by rw [modifyAt_length]; exact hlt)
        refine ⟨CommandPool.mk
          (modifyAt (modifyAt bufs j CmdBuf.finish) (j + 1) CmdBuf.beginPrimary)
          CBStrategy.AllocateNew (j + 1 + 1) bg, ?_, rfl, by simp, ?_⟩
        · simp [CommandPool.buffer_mut, hmax, hget1, hpush, hget2]
        · simp [modifyAt_length]
          omega

lemma runTrace_congr :
    ∀ (σ : List Bool) (p q : CommandPool),
      p.strategy = CBStrategy.AllocateNew → q.strategy = CBStrategy.AllocateNew →
      p.next_id = q.next_id →
      p.next_id ≤ p.command_buffers.length → q.next_id ≤ q.command_buffers.length →
      runTrace p σ = runTrace q σ := by
  intro σ
  induction σ with
  | nil => intro p q _ _ _ _ _; rfl
  | cons b bs ih =>
    intro p q hps hqs hpq hpl hql
    have hp := buffer_mut_shape p hps hpl b
    have hq := buffer_mut_shape q hqs hql b
    by_cases hc : b = true ∧ p.next_id = 0
    · rw [if_pos hc] at hp
      rw [if_pos ⟨hc.1, hpq ▸ hc.2⟩] at hq
      simp [runTrace, hp, hq]
    · rw [if_neg hc] at hp
      rw [if_neg (by rw [← hpq]; exact hc)] at hq
      obtain ⟨p2, hpeq, hp2s, hp2n, hp2l⟩ := hp
      obtain ⟨q2, hqeq, hq2s, hq2n, hq2l⟩ := hq
      simp only [runTrace, hpeq, hqeq, hpq]
      rw [ih p2 q2 hp2s hq2s (by rw [hp2n, hq2n, hpq]) hp2l hq2l]

/-- C8: resetting the pool (cursor zeroed, begun-flag re-armed) and replaying
any sequence of `buffer_mut` requests yields exactly the trace of buffer
indices that the same sequence produces from the fresh pool. -/
theorem C8_reset_determinism (s : CommandPool) (σ : List Bool)
    (hs : s.strategy = CBStrategy.AllocateNew) :
    runTrace CommandPool.new σ = runTrace s.reset σ := by
  apply runTrace_congr σ CommandPool.new s.reset rfl
  · exact hs
  · rfl
  · exact Nat.zero_le _
  · exact Nat.zero_le _

theorem C8_reset_determinism_witness :
    (CommandPool.mk [⟨1, 1⟩] CBStrategy.AllocateNew 1 false).strategy = CBStrategy.AllocateNew
    ∧ runTrace CommandPool.new [false, true, false]
      = runTrace (CommandPool.mk [⟨1, 1⟩] CBStrategy.AllocateNew 1 false).reset
          [false, true, false] :=
  ⟨by decide,
   C8_reset_determinism (CommandPool.mk [⟨1, 1⟩] CBStrategy.AllocateNew 1 false)
     [false, true, false] (by decide)⟩

/-- C7: under Per-Pass, an outside-pass request followed by two inside-pass
requests returns buffer 0 all three times; the inside-pass calls leave the
pool state (cursor, begin/finish counts) completely unchanged, the buffer is
begun exactly once and finished exactly once — at the submission call, never
between the inside-pass calls. -/
theorem C7_per_pass_interleaving :
    ∃ p1 subm p4,
      CommandPool.new.buffer_mut false = some (0, p1)
      ∧ p1.buffer_mut true = some (0, p1)
      ∧ p1.next_id = 1
      ∧ p1.command_buffers.map CmdBuf.begins = [1]
      ∧ p1.command_buffers.map CmdBuf.finishes = [0]
      ∧ p1.buffers_to_submit = some (subm, p4)
      ∧ subm.map CmdBuf.finishes = [1]
      ∧ p4.command_buffers.map CmdBuf.begins = [1]
      ∧ p4.command_buffers.map CmdBuf.finishes = [1] :=
  ⟨⟨[⟨1, 0⟩], CBStrategy.AllocateNew, 1, true⟩, [⟨1, 1⟩],
   ⟨[⟨1, 1⟩], CBStrategy.AllocateNew, 1, true⟩,
   rfl, rfl, rfl, rfl, rfl, rfl, rfl, rfl, rfl⟩

end Gfx
